import Mathlib

/-!
# Verification of the vparquet TraceQL fetch engine (tempo)

Shallow embedding of `tempodb/encoding/vparquet/block_traceql.go` and of the
query-frontend SLO hook, with theorems settling the frozen claims about the
natural-language specification.

Conventions:
* Go `int64` values are modelled as `Int`; `uint64` as `Nat`; Go `float64`
  values as `ℚ` (only their ordered-field structure is used by the code paths
  verified here).
* Go maps keyed by strings or attributes are modelled as association lists in
  first-insertion order, with overwrite-on-insert semantics.
* Fallible Go functions returning `(T, error)` are modelled as `Except String T`.
-/

set_option linter.unusedVariables false

namespace Tempo

/-- `traceql.StaticType`: the tag of the `Static` tagged union. -/
inductive StaticType where
  | nil
  | string
  | int
  | float
  | boolean
  | duration
  | status
  deriving DecidableEq, Repr

/-- `traceql.Static`: tagged union over string/int/float/bool/duration/status/nil.
`duration` carries nanoseconds; `status` carries the ordinal. -/
inductive Static where
  | str (s : String)
  | int (n : Int)
  | float (f : ℚ)
  | bool (b : Bool)
  | duration (ns : Int)
  | status (ord : Int)
  | nil
  deriving DecidableEq, Repr

/-- `Static.Type` field accessor. -/
def Static.sType : Static → StaticType
  | .str _ => .string
  | .int _ => .int
  | .float _ => .float
  | .bool _ => .boolean
  | .duration _ => .duration
  | .status _ => .status
  | .nil => .nil

/-- `traceql.Operator`. The Go type is an integer enum, so values outside the
named constants are representable; `other n` stands for those. -/
inductive Operator where
  | opNone
  | eq
  | ne
  | gt
  | ge
  | lt
  | le
  | regex
  | other (n : Nat)
  deriving DecidableEq, Repr

/-- `traceql.AttributeScope`. An integer enum in Go; `other n` stands for
values outside the named constants. -/
inductive AttributeScope where
  | none
  | span
  | resource
  | other (n : Nat)
  deriving DecidableEq, Repr

/-- `traceql.Intrinsic`. An integer enum in Go; `other n` stands for values
outside the named constants. `none` is the zero value (not an intrinsic). -/
inductive Intrinsic where
  | none
  | name
  | status
  | duration
  | other (n : Nat)
  deriving DecidableEq, Repr

/-- `traceql.Attribute` (the fields consulted by this file). -/
structure Attribute where
  scope : AttributeScope
  intrinsic : Intrinsic
  name : String
  deriving DecidableEq, Repr

/-- `traceql.Condition`. The Go field `Attribute` is named `attr` here because
`attribute` is a reserved word in Lean. -/
structure Condition where
  attr : Attribute
  op : Operator
  operands : List Static
  deriving DecidableEq, Repr

/-- `traceql.FetchSpansRequest`. -/
structure FetchSpansRequest where
  conditions : List Condition
  startTimeUnixNanos : Nat
  endTimeUnixNanos : Nat
  allConditions : Bool
  deriving DecidableEq, Repr

/-- `common.SearchOptions` (the fields consulted by `fetch`). Both fields are
Go `int`s. -/
structure SearchOptions where
  startPage : Int
  totalPages : Int
  deriving DecidableEq, Repr

/-! ## Condition validation (`checkConditions`) -/

/-- The Go source compares `reflect.TypeOf` of the operands. The operands are
values of the single Go struct type `traceql.Static`, so `reflect.TypeOf` is
constant over them; the comparison is embedded as this constant function. -/
def goStaticReflectType (_ : Static) : Unit := ()

/-- One iteration of the loop in `checkConditions` (block_traceql.go:119-155):
the arity switch on the operator followed by the operand-type loop. -/
def checkCondition (cond : Condition) : Except String Unit := do
  let opCount := cond.operands.length
  match cond.op with
  | .opNone =>
    if opCount ≠ 0 then
      throw "operanion none must have 0 arguments"
  | .eq | .ne | .gt | .ge | .lt | .le | .regex =>
    if opCount ≠ 1 then
      throw "operation must have exactly 1 argument"
  | .other _ =>
    throw "unknown operation"
  -- Verify all operands are of the same type (vacuous over the Go struct type)
  match cond.operands with
  | [] => pure ()
  | o0 :: rest =>
    if rest.all (fun o => goStaticReflectType o = goStaticReflectType o0) then
      pure ()
    else
      throw "operands must be of the same type"

/-- `checkConditions` (block_traceql.go:119-155). -/
def checkConditions : List Condition → Except String Unit
  | [] => .ok ()
  | cond :: rest => do
    checkCondition cond
    checkConditions rest

/-- `operandType` (block_traceql.go:157-162). -/
def operandType (operands : List Static) : StaticType :=
  match operands with
  | o :: _ => o.sType
  | [] => .nil

/-- The claim's characterization of a malformed condition, stated from the
spec's words (for comparison against `checkConditions`): `op=none` with a
non-zero operand count, a comparison operator with operand count ≠ 1, or an
operator outside the known set. -/
def malformedCondition (cond : Condition) : Bool :=
  let isCmp : Bool :=
    match cond.op with
    | .eq | .ne | .gt | .ge | .lt | .le | .regex => true
    | _ => false
  (cond.op == .opNone && cond.operands.length != 0) ||
  (isCmp && cond.operands.length != 1) ||
  (cond.op != .opNone && !isCmp)

/-- `Fetch` (block_traceql.go:96-117). File I/O (`openForSearch`) and iterator
construction (`fetch`) are abstracted as parameters `openForSearch` and
`mkFetchIter`; the `Bool` component of the result records whether
`openForSearch` was consulted (i.e. whether any file I/O took place). -/
def Fetch {PF Iter : Type} (req : FetchSpansRequest)
    (openForSearch : Except String PF)
    (mkFetchIter : PF → Except String Iter) :
    Except String Iter × Bool :=
  match checkConditions req.conditions with
  | .error e => (.error ("conditions invalid: " ++ e), false)
  | .ok _ =>
    match openForSearch with
    | .error e => (.error e, true)
    | .ok pf =>
      match mkFetchIter pf with
      | .error e => (.error ("creating fetch iter: " ++ e), true)
      | .ok iter => (.ok iter, true)

theorem checkCondition_error_iff (cond : Condition) :
    (∃ e, checkCondition cond = .error e) ↔ malformedCondition cond = true := by
  rcases cond with ⟨a, op, ops⟩
  cases op <;> rcases ops with _ | ⟨o0, _ | ⟨o1, rest⟩⟩ <;>
    simp [checkCondition, malformedCondition, goStaticReflectType, List.all_eq_true,
      bind, Except.bind, throw, throwThe, MonadExceptOf.throw, pure, Except.pure]

theorem checkConditions_error_iff (conds : List Condition) :
    (∃ e, checkConditions conds = .error e) ↔ ∃ c ∈ conds, malformedCondition c = true := by
  induction conds with
  | nil => simp [checkConditions]
  | cons c rest ih =>
    constructor
    · rintro ⟨e, he⟩
      by_cases hc : malformedCondition c
      · exact ⟨c, by simp, hc⟩
      · have hok : ∀ e', checkCondition c ≠ .error e' := by
          intro e' h'
          exact hc ((checkCondition_error_iff c).mp ⟨e', h'⟩)
        cases hcc : checkCondition c with
        | error e' => exact absurd hcc (hok e')
        | ok u =>
          simp only [checkConditions, bind, Except.bind, hcc] at he
          obtain ⟨c', hc', hm⟩ := ih.mp ⟨e, he⟩
          exact ⟨c', by simp [hc'], hm⟩
    · rintro ⟨c', hc', hm⟩
      rcases List.mem_cons.mp hc' with h | h
      · subst h
        obtain ⟨e, he⟩ := (checkCondition_error_iff c').mpr hm
        exact ⟨e, by simp [checkConditions, bind, Except.bind, he]⟩
      · cases hcc : checkCondition c with
        | error e => exact ⟨e, by simp [checkConditions, bind, Except.bind, hcc]⟩
        | ok u =>
          obtain ⟨e, he⟩ := ih.mpr ⟨c', h, hm⟩
          exact ⟨e, by simp [checkConditions, bind, Except.bind, hcc, he]⟩

/-! ## Condition categorization in `fetch` -/

/-- Column-path constants (block_traceql.go:23-58), subset used here. -/
def columnPathSpanName : String := "rs.ils.Spans.Name"

def columnPathSpanStatusCode : String := "rs.ils.Spans.StatusCode"

def columnPathSpanStartTime : String := "rs.ils.Spans.StartUnixNanos"

def columnPathSpanEndTime : String := "rs.ils.Spans.EndUnixNanos"

def columnPathSpanID : String := "rs.ils.Spans.ID"

/-- `intrinsicColumnLookups` (block_traceql.go:60-68): scope, static type and
column path for each intrinsic with a dedicated column. -/
def intrinsicColumnLookups (i : Intrinsic) :
    Option (AttributeScope × StaticType × String) :=
  match i with
  | .name => some (.span, .string, columnPathSpanName)
  | .status => some (.span, .status, columnPathSpanStatusCode)
  | .duration => some (.span, .duration, "")
  | _ => none

/-- The effective scope of a condition: the `scope` local computed at
block_traceql.go:277-282 (a scope-`none` intrinsic takes the scope from the
intrinsic lookup table). -/
def effScope (cond : Condition) : AttributeScope :=
  if cond.attr.scope = .none then
    match intrinsicColumnLookups cond.attr.intrinsic with
    | some (sc, _, _) => sc
    | none => .none
  else cond.attr.scope

/-- The condition-categorization loop at the head of `fetch`
(block_traceql.go:268-300), with the three loop variables as accumulators.
Returns `(mingledConditions, spanConditions, resourceConditions)`. -/
def categorizeLoop : List Condition → Bool → List Condition → List Condition →
    Except String (Bool × List Condition × List Condition)
  | [], m, s, r => .ok (m, s, r)
  | cond :: rest, m, s, r =>
    match effScope cond with
    | .none => categorizeLoop rest true (s ++ [cond]) (r ++ [cond])
    | .span => categorizeLoop rest m (s ++ [cond]) r
    | .resource => categorizeLoop rest m s (r ++ [cond])
    | .other _ => .error "unsupported traceql scope"

/-- The categorization section of `fetch` (block_traceql.go:268-300). -/
def categorizeConditions (conds : List Condition) :
    Except String (Bool × List Condition × List Condition) :=
  categorizeLoop conds false [] []

/-- The behavior-flag block of `fetch` (block_traceql.go:323-340). -/
structure FetchFlags where
  spanRequireAtLeastOneMatch : Bool
  batchRequireAtLeastOneMatch : Bool
  batchRequireAtLeastOneMatchOverall : Bool
  allConditions : Bool
  deriving DecidableEq, Repr

/-- The flag computation in `fetch` (block_traceql.go:323-340), taking the
categorization results. -/
def fetchFlags (req : FetchSpansRequest) (mingledConditions : Bool)
    (spanConditions resourceConditions : List Condition) : FetchFlags :=
  { spanRequireAtLeastOneMatch :=
      decide (spanConditions.length > 0) && decide (resourceConditions.length = 0)
    batchRequireAtLeastOneMatch :=
      decide (spanConditions.length = 0) && decide (resourceConditions.length > 0)
    batchRequireAtLeastOneMatchOverall := decide (req.conditions.length > 0)
    allConditions := req.allConditions && !mingledConditions }

theorem scopeBeq (x y : AttributeScope) : (x == y) = decide (x = y) := rfl

theorem categorizeLoop_ok (conds : List Condition) (m0 : Bool)
    (s0 r0 : List Condition) (m : Bool) (s r : List Condition)
    (h : categorizeLoop conds m0 s0 r0 = .ok (m, s, r)) :
    m = (m0 || conds.any fun c => effScope c == .none) ∧
    s = s0 ++ conds.filter (fun c => effScope c == .none || effScope c == .span) ∧
    r = r0 ++ conds.filter (fun c => effScope c == .none || effScope c == .resource) := by
  induction conds generalizing m0 s0 r0 with
  | nil =>
    simp only [categorizeLoop, Except.ok.injEq, Prod.mk.injEq] at h
    simp [h.1.symm, h.2.1.symm, h.2.2.symm]
  | cons c rest ih =>
    unfold categorizeLoop at h
    cases hsc : effScope c with
    | none =>
      rw [hsc] at h
      obtain ⟨h1, h2, h3⟩ := ih _ _ _ h
      simp [h1, h2, h3, hsc, List.filter_cons, List.any_cons, beq_iff_eq]
    | span =>
      rw [hsc] at h
      obtain ⟨h1, h2, h3⟩ := ih _ _ _ h
      simp [h1, h2, h3, hsc, List.filter_cons, List.any_cons, scopeBeq]
    | resource =>
      rw [hsc] at h
      obtain ⟨h1, h2, h3⟩ := ih _ _ _ h
      simp [h1, h2, h3, hsc, List.filter_cons, List.any_cons, scopeBeq]
    | other n =>
      rw [hsc] at h
      cases h

theorem effScope_span_scope (c : Condition) (h : effScope c = .span) :
    c.attr.scope = .span ∨ c.attr.scope = .none := by
  unfold effScope at h
  by_cases hs : c.attr.scope = .none
  · right; exact hs
  · left; rw [if_neg hs] at h; exact h

theorem effScope_of_scope_span (c : Condition) (h : c.attr.scope = .span) :
    effScope c = .span := by
  unfold effScope
  rw [h]; simp

theorem effScope_of_scope_resource (c : Condition) (h : c.attr.scope = .resource) :
    effScope c = .resource := by
  unfold effScope
  rw [h]; simp

theorem effScope_of_nonintrinsic_none (c : Condition) (hi : c.attr.intrinsic = .none)
    (hs : c.attr.scope = .none) : effScope c = .none := by
  unfold effScope
  rw [hs, hi]; simp [intrinsicColumnLookups]

theorem effScope_none_scope (c : Condition) (h : effScope c = .none) :
    c.attr.scope = .none := by
  unfold effScope at h
  by_cases hs : c.attr.scope = .none
  · exact hs
  · rw [if_neg hs] at h; exact absurd h hs

theorem effScope_resource_scope (c : Condition) (h : effScope c = .resource) :
    c.attr.scope = .resource := by
  unfold effScope at h
  by_cases hs : c.attr.scope = .none
  · rw [if_pos hs] at h
    exfalso
    rcases hi : c.attr.intrinsic <;> rw [hi] at h <;>
      simp [intrinsicColumnLookups] at h
  · rw [if_neg hs] at h; exact h

/-- C1: For every FetchSpansRequest, `Fetch` runs condition validation before
any file I/O (the file is not opened, i.e. the did-I/O flag is `false`, when
validation fails), and validation fails exactly when some condition is
malformed: `op=none` with a non-zero operand count, a comparison operator
(eq/ne/gt/ge/lt/le/regex) with operand count ≠ 1, or an operator outside this
set; a condition list in which every condition satisfies the arity rules is
accepted. -/
theorem C1_fetch_validates_before_io {PF Iter : Type} (req : FetchSpansRequest)
    (openForSearch : Except String PF) (mkFetchIter : PF → Except String Iter) :
    ((∃ e, checkConditions req.conditions = .error e) ↔
      ∃ c ∈ req.conditions, malformedCondition c = true) ∧
    (∀ e, checkConditions req.conditions = .error e →
      Fetch req openForSearch mkFetchIter =
        (.error ("conditions invalid: " ++ e), false)) := by
  refine ⟨checkConditions_error_iff req.conditions, ?_⟩
  intro e he
  simp [Fetch, he]

theorem C1_fetch_validates_before_io_witness :
    @Fetch Unit Unit
        ⟨[⟨⟨.span, .none, "foo"⟩, .eq, []⟩], 0, 0, false⟩
        (.ok ()) (fun _ => .ok ()) =
      (.error "conditions invalid: operation must have exactly 1 argument", false) :=
  (C1_fetch_validates_before_io _ _ _).2
    "operation must have exactly 1 argument" (by rfl)

/-- C2: the planner places each non-intrinsic scope-`none` condition into both
the span and resource plans, each scope-`span` condition only into the span
plan, each scope-`resource` condition only into the resource plan; and when at
least one non-intrinsic scope-`none` (mingled) condition is present, the
effective `allConditions` flag is `false` even if `req.AllConditions` is true. -/
theorem C2_scope_routing (req : FetchSpansRequest) (m : Bool)
    (s r : List Condition)
    (h : categorizeConditions req.conditions = .ok (m, s, r)) :
    (∀ c ∈ req.conditions, c.attr.intrinsic = .none → c.attr.scope = .none →
      c ∈ s ∧ c ∈ r) ∧
    (∀ c ∈ req.conditions, c.attr.scope = .span → c ∈ s ∧ c ∉ r) ∧
    (∀ c ∈ req.conditions, c.attr.scope = .resource → c ∈ r ∧ c ∉ s) ∧
    ((∃ c ∈ req.conditions, c.attr.intrinsic = .none ∧ c.attr.scope = .none) →
      (fetchFlags req m s r).allConditions = false) := by
  obtain ⟨hm, hs, hr⟩ := categorizeLoop_ok _ _ _ _ _ _ _ h
  simp only [List.nil_append] at hs hr
  refine ⟨?_, ?_, ?_, ?_⟩
  · intro c hc hi hsc
    have he := effScope_of_nonintrinsic_none c hi hsc
    constructor
    · rw [hs]; exact List.mem_filter.mpr ⟨hc, by simp [he, scopeBeq]⟩
    · rw [hr]; exact List.mem_filter.mpr ⟨hc, by simp [he, scopeBeq]⟩
  · intro c hc hsc
    have he := effScope_of_scope_span c hsc
    refine ⟨by rw [hs]; exact List.mem_filter.mpr ⟨hc, by simp [he, scopeBeq]⟩, ?_⟩
    intro hcr
    rw [hr] at hcr
    have hp := (List.mem_filter.mp hcr).2
    simp only [scopeBeq, Bool.or_eq_true, decide_eq_true_eq] at hp
    rcases hp with hp | hp
    · rw [effScope_none_scope c hp] at hsc; cases hsc
    · rw [effScope_resource_scope c hp] at hsc; cases hsc
  · intro c hc hsc
    have he := effScope_of_scope_resource c hsc
    refine ⟨by rw [hr]; exact List.mem_filter.mpr ⟨hc, by simp [he, scopeBeq]⟩, ?_⟩
    intro hcs
    rw [hs] at hcs
    have hp := (List.mem_filter.mp hcs).2
    simp only [scopeBeq, Bool.or_eq_true, decide_eq_true_eq] at hp
    rcases hp with hp | hp
    · rw [effScope_none_scope c hp] at hsc; cases hsc
    · rcases effScope_span_scope c hp with h' | h' <;> rw [h'] at hsc <;> cases hsc
  · rintro ⟨c, hc, hi, hsc⟩
    have he := effScope_of_nonintrinsic_none c hi hsc
    have : (req.conditions.any fun c => effScope c == AttributeScope.none) = true := by
      rw [List.any_eq_true]
      exact ⟨c, hc, by simp [he, scopeBeq]⟩
    simp [fetchFlags, hm, this]

theorem C2_scope_routing_witness :
    let mingledC : Condition := ⟨⟨.none, .none, "foo"⟩, .eq, [.str "bar"]⟩
    let spanC : Condition := ⟨⟨.span, .none, "a"⟩, .eq, [.str "x"]⟩
    let resC : Condition := ⟨⟨.resource, .none, "b"⟩, .eq, [.str "y"]⟩
    let req : FetchSpansRequest := ⟨[mingledC, spanC, resC], 0, 0, true⟩
    let s : List Condition := [mingledC, spanC]
    let r : List Condition := [mingledC, resC]
    (mingledC ∈ s ∧ mingledC ∈ r) ∧ (spanC ∈ s ∧ spanC ∉ r) ∧
      (resC ∈ r ∧ resC ∉ s) ∧ (fetchFlags req true s r).allConditions = false := by
  intro mingledC spanC resC req s r
  have h : categorizeConditions req.conditions = .ok (true, s, r) := by rfl
  obtain ⟨h1, h2, h3, h4⟩ := C2_scope_routing req true s r h
  exact ⟨h1 mingledC (by decide) (by decide) (by decide),
    h2 spanC (by decide) (by decide),
    h3 resC (by decide) (by decide),
    h4 ⟨mingledC, by decide, by decide, by decide⟩⟩

/-! ## Row-group narrowing in `fetch` (C9) -/

/-- Go slice expression `s[lo:hi]`: panics unless `0 ≤ lo ≤ hi ≤ len(s)`;
modelled as `none` on panic. -/
def goSlice {α : Type} (s : List α) (lo hi : Int) : Option (List α) :=
  if 0 ≤ lo ∧ lo ≤ hi ∧ hi ≤ s.length then
    some ((s.drop lo.toNat).take (hi - lo).toNat)
  else
    none

/-- The row-group narrowing in `fetch` (block_traceql.go:302-311): clamp
`TotalPages` when `StartPage+TotalPages` overshoots, then slice. Returns the
selected row groups, or `none` when the Go slice expression would panic. -/
def selectRowGroups {α : Type} (rgs : List α) (opts : SearchOptions) :
    Option (List α) :=
  if opts.totalPages > 0 then
    let totalPages :=
      if opts.startPage + opts.totalPages > rgs.length then
        (rgs.length : Int) - opts.startPage
      else
        opts.totalPages
    goSlice rgs opts.startPage (opts.startPage + totalPages)
  else
    some rgs

/-- C9 counterexample: with one row group, `StartPage = 2`, `TotalPages = 1`
(both non-negative), the clamp makes `TotalPages` negative and the slice
expression `rgs[2:1]` is out of bounds (a Go panic), refuting "the row-group
slice operation is always within bounds for all non-negative values". -/
theorem C9_counterexample :
    selectRowGroups [()] ⟨2, 1⟩ = none := by decide

/-- C9 (amended): whenever `TotalPages > 0` and `0 ≤ StartPage ≤` the file's
row-group count, `fetch` narrows the scan to the row groups in
`[StartPage, StartPage+TotalPages)` clamped to the row-group count, and the
slice operation is within bounds. -/
theorem C9_rowgroup_narrowing {α : Type} (rgs : List α) (opts : SearchOptions)
    (h0 : 0 ≤ opts.startPage) (h1 : opts.startPage ≤ rgs.length)
    (h2 : 0 < opts.totalPages) :
    selectRowGroups rgs opts =
      some ((rgs.drop opts.startPage.toNat).take
        (min opts.totalPages ((rgs.length : Int) - opts.startPage)).toNat) := by
  unfold selectRowGroups goSlice
  rw [if_pos h2]
  split
  · rename_i hclamp
    rw [if_pos (by omega)]
    congr 2
    omega
  · rename_i hclamp
    rw [if_pos (by omega)]
    congr 2
    omega

theorem C9_rowgroup_narrowing_witness :
    selectRowGroups [0, 1, 2] ⟨1, 5⟩ = some [1, 2] :=
  (C9_rowgroup_narrowing [0, 1, 2] ⟨1, 5⟩ (by decide) (by decide) (by decide)).trans
    (by decide)

/-! ## Integer predicates (C6) -/

/-- The value-function / page-range-function pair of a
`parquetquery.GenericPredicate[int64]` (what `NewIntPredicate` is given). -/
structure GenericPredicateI64 where
  fn : Int → Bool
  rangeFn : Int → Int → Bool

/-- `createIntPredicate` (block_traceql.go:725-767). `none` models the nil
predicate returned for `OpNone`. The Go code indexes `operands[0]`; the
empty-operand case (a panic in Go, unreachable behind `checkConditions`) is
mapped to the type-mismatch error. -/
def createIntPredicate (op : Operator) (operands : List Static) :
    Except String (Option GenericPredicateI64) :=
  if op = .opNone then
    .ok none
  else
    match operands with
    | .int n :: _ => createIntPredicateFor op n
    | .duration d :: _ => createIntPredicateFor op d
    | _ => .error "operand is not int or duration"
where
  /-- The `switch op` block of `createIntPredicate` for operand value `i`. -/
  createIntPredicateFor (op : Operator) (i : Int) :
      Except String (Option GenericPredicateI64) :=
    match op with
    | .eq => .ok (some ⟨fun v => decide (v = i),
        fun mn mx => decide (mn ≤ i) && decide (i ≤ mx)⟩)
    | .ne => .ok (some ⟨fun v => decide (v ≠ i),
        fun mn mx => decide (mn ≠ i) || decide (mx ≠ i)⟩)
    | .gt => .ok (some ⟨fun v => decide (v > i), fun mn mx => decide (mx > i)⟩)
    | .ge => .ok (some ⟨fun v => decide (v ≥ i), fun mn mx => decide (mx ≥ i)⟩)
    | .lt => .ok (some ⟨fun v => decide (v < i), fun mn mx => decide (mn < i)⟩)
    | .le => .ok (some ⟨fun v => decide (v ≤ i), fun mn mx => decide (mn ≤ i)⟩)
    | _ => .error "operand not supported for integers"

/-- C6: page pruning of the integer predicates is sound: for every comparison
operator and integer operand `i`, the predicate pair built by
`createIntPredicate` satisfies: every value kept by `fn` lies in no page
`[mn, mx]` that `rangeFn` rejects. -/
theorem C6_int_predicate_pruning_sound (op : Operator) (i : Int)
    (p : GenericPredicateI64)
    (hop : op = .eq ∨ op = .ne ∨ op = .gt ∨ op = .ge ∨ op = .lt ∨ op = .le)
    (hp : createIntPredicate op [.int i] = .ok (some p)) :
    ∀ v mn mx : Int, p.fn v = true → mn ≤ v → v ≤ mx →
      p.rangeFn mn mx = true := by
  rcases hop with rfl | rfl | rfl | rfl | rfl | rfl <;>
    · simp only [createIntPredicate, createIntPredicate.createIntPredicateFor,
        reduceCtorEq, if_false, Except.ok.injEq, Option.some.injEq] at hp
      subst hp
      intro v mn mx hv hmn hmx
      simp only [decide_eq_true_eq, Bool.or_eq_true, Bool.and_eq_true] at hv ⊢
      omega

/-- The predicate pair `createIntPredicate` builds for `> 5`. -/
def intPredGtFive : GenericPredicateI64 :=
  ⟨fun v => decide (v > 5), fun mn mx => decide (mx > 5)⟩

theorem C6_int_predicate_pruning_sound_witness :
    intPredGtFive.rangeFn 0 10 = true :=
  C6_int_predicate_pruning_sound .gt 5 intPredGtFive (by simp) (by rfl)
    6 0 10 (by decide) (by decide) (by decide)

/-! ## Parquet values, iterator results, attribute maps -/

/-- `parquet.Value` (the kinds consulted by the collectors): `null` models a
value whose `Kind()` is negative; `byteArray` carries the byte-array/string
payload (`ByteArray()` and `String()` return the same payload); `float` is the
32-bit kind, `double` the 64-bit kind. -/
inductive PqValue where
  | null
  | bool (b : Bool)
  | int32 (n : Int)
  | int64 (n : Int)
  | float (f : ℚ)
  | double (f : ℚ)
  | byteArray (s : String)
  deriving DecidableEq, Repr

/-- `parquet.Value.Uint64()`: the value bits as a `uint64` (for the
integer-kind values the collectors read this way). -/
def PqValue.uint64V : PqValue → Nat
  | .int32 n => (n % 2 ^ 64).toNat
  | .int64 n => (n % 2 ^ 64).toNat
  | _ => 0

/-- `parquet.Value.String()` / `ByteArray()`. -/
def PqValue.stringV : PqValue → String
  | .byteArray s => s
  | _ => ""

/-- Go `uint64` subtraction `a - b` (mod `2^64`). -/
def goUint64Sub (a b : Nat) : Nat :=
  (a % 2 ^ 64 + 2 ^ 64 - b % 2 ^ 64) % 2 ^ 64

/-- Go cast `int64(u)` of a `uint64` value. -/
def int64OfUInt64 (n : Nat) : Int :=
  if n % 2 ^ 64 < 2 ^ 63 then ((n % 2 ^ 64 : Nat) : Int)
  else ((n % 2 ^ 64 : Nat) : Int) - 2 ^ 64

/-- `traceql.NewScopedAttribute(AttributeScopeSpan, false, name)`
(`newSpanAttr`, block_traceql.go:1225-1227). -/
def newSpanAttr (name : String) : Attribute := ⟨.span, .none, name⟩

/-- `traceql.NewScopedAttribute(AttributeScopeResource, false, name)`
(`newResAttr`, block_traceql.go:1229-1231). -/
def newResAttr (name : String) : Attribute := ⟨.resource, .none, name⟩

/-- Modelled from the spec: the display name of an intrinsic (`Intrinsic.String`
in pkg/traceql, not under src/); intrinsics appear as map entries with
synthetic scoped attributes. -/
def Intrinsic.strName : Intrinsic → String
  | .none => "none"
  | .name => "name"
  | .status => "status"
  | .duration => "duration"
  | .other _ => "unknown"

/-- Modelled from the spec: `traceql.NewIntrinsic` (pkg/traceql, not under
src/) — the synthetic attribute under which an intrinsic value is stored. -/
def NewIntrinsic (i : Intrinsic) : Attribute := ⟨.none, i, i.strName⟩

/-- A Go `map[traceql.Attribute]traceql.Static`, modelled as an association
list in first-insertion order with overwrite-on-insert. -/
abbrev AttrMap := List (Attribute × Static)

/-- Map lookup. -/
def AttrMap.find? : AttrMap → Attribute → Option Static
  | [], _ => none
  | (k', v) :: rest, k => if k' = k then some v else AttrMap.find? rest k

/-- Map assignment `m[k] = v` (overwrite or append). -/
def AttrMap.insert : AttrMap → Attribute → Static → AttrMap
  | [], k, v => [(k, v)]
  | (k', v') :: rest, k, v =>
    if k' = k then (k, v) :: rest else (k', v') :: AttrMap.insert rest k v

/-- Number of entries whose value has non-nil type. -/
def AttrMap.nonNilCount (m : AttrMap) : Nat :=
  m.countP fun kv => decide (kv.2.sType ≠ .nil)

/-- `traceql.Span` (block_traceql.go usage: ID, start/end unix nanos,
attribute map). -/
structure Span where
  id : String
  startTimeUnixNanos : Nat
  endtimeUnixNanos : Nat
  attributes : AttrMap
  deriving DecidableEq, Repr

/-- `traceql.Spanset` (the field populated by `batchCollector`). -/
structure Spanset where
  spans : List Span
  deriving DecidableEq, Repr

/-- The composite objects carried in `IteratorResult.OtherEntries`. -/
inductive OtherValue where
  | static (v : Static)
  | span (sp : Span)
  | spanset (ss : Spanset)
  deriving DecidableEq, Repr

/-- `parquetquery.IteratorResult` (the fields consulted by the collectors). -/
structure IteratorResult where
  entries : List (String × PqValue)
  otherEntries : List (String × OtherValue)
  deriving DecidableEq, Repr

/-! ## spanCollector (C3) -/

/-- `spanCollector` (block_traceql.go:959-962). Nil entries of the Go slice
`durationFilters` are `none`. -/
structure SpanCollector where
  minAttributes : Nat
  durationFilters : List (Option GenericPredicateI64)

/-- One iteration of the `res.Entries` loop in `spanCollector.KeepGroup`
(block_traceql.go:977-1018). -/
def spanEntryStep (sp : Span) (kv : String × PqValue) : Span :=
  if kv.1 = columnPathSpanID then
    { sp with id := kv.2.stringV }
  else if kv.1 = columnPathSpanStartTime then
    { sp with startTimeUnixNanos := kv.2.uint64V }
  else if kv.1 = columnPathSpanEndTime then
    { sp with endtimeUnixNanos := kv.2.uint64V }
  else if kv.1 = columnPathSpanName then
    { sp with attributes :=
        AttrMap.insert sp.attributes (NewIntrinsic .name) (.str kv.2.stringV) }
  else if kv.1 = columnPathSpanStatusCode then
    -- Map OTLP status code back to the TraceQL enum; other values pass through
    let st : Int :=
      match kv.2.uint64V with
      | 0 => statusUnset
      | 1 => statusOk
      | 2 => statusError
      | n => (n : Int)
    { sp with attributes :=
        AttrMap.insert sp.attributes (NewIntrinsic .status) (.status st) }
  else
    match kv.2 with
    | .bool b =>
      { sp with attributes := AttrMap.insert sp.attributes (newSpanAttr kv.1) (.bool b) }
    | .int32 n =>
      { sp with attributes := AttrMap.insert sp.attributes (newSpanAttr kv.1) (.int n) }
    | .int64 n =>
      { sp with attributes := AttrMap.insert sp.attributes (newSpanAttr kv.1) (.int n) }
    | .float f =>
      { sp with attributes := AttrMap.insert sp.attributes (newSpanAttr kv.1) (.float f) }
    | .byteArray s =>
      { sp with attributes := AttrMap.insert sp.attributes (newSpanAttr kv.1) (.str s) }
    | _ => sp
where
  /-- OTLP code 0 maps to `traceql.StatusUnset` (modelled from the spec:
  status ordinals in pkg/traceql are not under src/). -/
  statusUnset : Int := 0
  /-- OTLP code 1 maps to `traceql.StatusOk`. -/
  statusOk : Int := 1
  /-- OTLP code 2 maps to `traceql.StatusError`. -/
  statusError : Int := 2

/-- The span assembled by `spanCollector.KeepGroup` (block_traceql.go:966-1029):
attributes from `OtherEntries` (statics emitted by the attribute collector;
the Go code type-asserts `traceql.Static` there, so other variants are
ignored), then the per-column entries, then the computed duration when at
least one duration filter is present and passes. `spanOtherStep` is one step
of the `res.OtherEntries` loop (block_traceql.go:972-974). -/
def spanOtherStep (sp : Span) (e : String × OtherValue) : Span :=
  match e.2 with
  | .static v =>
    { sp with attributes := AttrMap.insert sp.attributes (newSpanAttr e.1) v }
  | _ => sp

def spanCollectorBuildSpan (c : SpanCollector) (res : IteratorResult) : Span :=
  let span0 : Span := { id := "", startTimeUnixNanos := 0, endtimeUnixNanos := 0, attributes := [] }
  let span1 := res.otherEntries.foldl spanOtherStep span0
  let span2 := res.entries.foldl spanEntryStep span1
  if c.durationFilters.length > 0 then
    let dur := goUint64Sub span2.endtimeUnixNanos span2.startTimeUnixNanos
    if c.durationFilters.any
        (fun f =>
          match f with
          | none => true
          | some p => p.fn (int64OfUInt64 dur)) then
      let attrs :=
        AttrMap.insert span2.attributes (NewIntrinsic .duration)
          (.duration (int64OfUInt64 dur))
      { span2 with attributes := attrs }
    else
      span2
  else
    span2

/-- `spanCollector.KeepGroup` (block_traceql.go:966-1048): rejects the group
when `minAttributes` is positive and fewer attributes have non-nil type;
otherwise rewrites the result to carry the span in `OtherEntries`. -/
def spanCollectorKeepGroup (c : SpanCollector) (res : IteratorResult) :
    Bool × IteratorResult :=
  let span := spanCollectorBuildSpan c res
  if c.minAttributes > 0 ∧ AttrMap.nonNilCount span.attributes < c.minAttributes then
    (false, res)
  else
    (true, { entries := [], otherEntries := [("span", .span span)] })

/-- The Go map-based distinct-name count in `createSpanIterator`
(block_traceql.go:483-488). -/
def distinctNameCount (conds : List Condition) : Nat :=
  ((conds.map fun c => c.attr.name).dedup).length

/-- The `minCount` computation in `createSpanIterator`
(block_traceql.go:478-489). -/
def spanIterMinCount (conds : List Condition)
    (requireAtLeastOneMatch allConditions : Bool) : Nat :=
  let minCount := 0
  let minCount := if requireAtLeastOneMatch then 1 else minCount
  if allConditions then distinctNameCount conds else minCount

/-- C3: the span iterator minimum-match count is 0 by default, 1 when
`requireAtLeastOneMatch`, and the number of distinct attribute names among the
span conditions when `allConditions`; and every span the span collector lets
through has at least `minAttributes` attributes of non-nil type. -/
theorem C3_min_count_semantics (conds : List Condition) (r : Bool)
    (c : SpanCollector) (res res' : IteratorResult) :
    spanIterMinCount conds false false = 0 ∧
    spanIterMinCount conds true false = 1 ∧
    spanIterMinCount conds r true = distinctNameCount conds ∧
    (spanCollectorKeepGroup c res = (true, res') →
      ∀ sp : Span, ("span", OtherValue.span sp) ∈ res'.otherEntries →
        c.minAttributes ≤ AttrMap.nonNilCount sp.attributes) := by
  refine ⟨rfl, rfl, by simp [spanIterMinCount], ?_⟩
  intro h sp hsp
  simp only [spanCollectorKeepGroup] at h
  split at h
  · simp at h
  · rename_i hcond
    injection h with h1 h2
    subst h2
    simp only [List.mem_singleton, Prod.mk.injEq, OtherValue.span.injEq] at hsp
    obtain ⟨-, hsp⟩ := hsp
    subst hsp
    omega

theorem C3_min_count_semantics_witness :
    let res : IteratorResult := ⟨[], [("foo", .static (.str "bar"))]⟩
    let c : SpanCollector := ⟨1, []⟩
    let sp := spanCollectorBuildSpan c res
    (1 : Nat) ≤ AttrMap.nonNilCount sp.attributes := by
  intro res c sp
  exact (C3_min_count_semantics [] false c res
      ⟨[], [("span", .span sp)]⟩).2.2.2 (by rfl) sp (by simp)

/-! ## batchCollector (C4) -/

/-- `batchCollector` (block_traceql.go:1052-1055). -/
structure BatchCollector where
  requireAtLeastOneMatchOverall : Bool
  minAttributes : Nat

/-- The `res.OtherEntries` loop of `batchCollector.KeepGroup`
(block_traceql.go:1067-1077): separates spans from resource-attribute
statics (the Go type switch ignores other variants). Returns
`(resAttrs, spans)`. -/
def batchCollectorCollect (oe : List (String × OtherValue)) :
    AttrMap × List Span :=
  oe.foldl
    (fun acc kv =>
      match kv.2 with
      | .span sp => (acc.1, acc.2 ++ [sp])
      | .static v => (AttrMap.insert acc.1 (newResAttr kv.1) v, acc.2)
      | _ => acc)
    ([], [])

/-- The `res.Entries` loop of `batchCollector.KeepGroup`
(block_traceql.go:1085-1092): gather statics from dedicated resource-level
columns (only Int64 and ByteArray kinds are read). -/
def batchCollectorEntryAttrs (resAttrs : AttrMap)
    (entries : List (String × PqValue)) : AttrMap :=
  entries.foldl
    (fun m e =>
      match e.2 with
      | .int64 n => AttrMap.insert m (newResAttr e.1) (.int n)
      | .byteArray s => AttrMap.insert m (newResAttr e.1) (.str s)
      | _ => m)
    resAttrs

/-- One step of the resource-attribute copy loop
(block_traceql.go:1101-1107): copy `kv` onto the map unless the key already
exists. -/
def insertIfAbsent (a : AttrMap) (k : Attribute) (v : Static) : AttrMap :=
  if (AttrMap.find? a k).isSome then a else a ++ [(k, v)]

/-- The resource-attribute copy loop of `batchCollector.KeepGroup`
(block_traceql.go:1101-1107) applied to one span. -/
def propagateResAttrs (resAttrs : AttrMap) (sp : Span) : Span :=
  { sp with attributes :=
      resAttrs.foldl (fun a kv => insertIfAbsent a kv.1 kv.2) sp.attributes }

/-- The unmatched-attribute removal loop of `batchCollector.KeepGroup`
(block_traceql.go:1110-1116) applied to one span. -/
def removeNilAttrs (sp : Span) : Span :=
  { sp with attributes :=
      sp.attributes.filter fun kv => decide (kv.2.sType ≠ .nil) }

/-- `batchCollector.KeepGroup` (block_traceql.go:1059-1143). -/
def batchCollectorKeepGroup (c : BatchCollector) (res : IteratorResult) :
    Bool × IteratorResult :=
  let collected := batchCollectorCollect res.otherEntries
  let spans := collected.2
  -- Throw out batches without any spans
  if spans.length = 0 then
    (false, res)
  else
    let resAttrs := batchCollectorEntryAttrs collected.1 res.entries
    if c.minAttributes > 0 ∧ resAttrs.length < c.minAttributes then
      (false, res)
    else
      let spans2 := spans.map fun sp => removeNilAttrs (propagateResAttrs resAttrs sp)
      let kept :=
        if c.requireAtLeastOneMatchOverall then
          spans2.filter fun sp => decide (sp.attributes.length > 0)
        else
          spans2
      if kept.length = 0 then
        (false, res)
      else
        (true, { entries := [], otherEntries := [("spanset", .spanset ⟨kept⟩)] })

/-! ### AttrMap lemmas -/

/-- The keys of the map are pairwise distinct. -/
def AttrMap.NodupKeys (m : AttrMap) : Prop := (m.map Prod.fst).Nodup

theorem AttrMap.find?_append_of_none (m1 m2 : AttrMap) (k : Attribute)
    (h : AttrMap.find? m1 k = none) :
    AttrMap.find? (m1 ++ m2) k = AttrMap.find? m2 k := by
  induction m1 with
  | nil => simp
  | cons kv rest ih =>
    obtain ⟨k', v'⟩ := kv
    simp only [AttrMap.find?] at h
    by_cases hk : k' = k
    · rw [if_pos hk] at h; cases h
    · rw [if_neg hk] at h
      simpa [AttrMap.find?, hk] using ih h

theorem AttrMap.find?_append_of_some (m1 m2 : AttrMap) (k : Attribute) (v : Static)
    (h : AttrMap.find? m1 k = some v) :
    AttrMap.find? (m1 ++ m2) k = some v := by
  induction m1 with
  | nil => simp [AttrMap.find?] at h
  | cons kv rest ih =>
    obtain ⟨k', v'⟩ := kv
    simp only [AttrMap.find?] at h
    by_cases hk : k' = k
    · rw [if_pos hk] at h
      simpa [AttrMap.find?, hk] using h
    · rw [if_neg hk] at h
      simpa [AttrMap.find?, hk] using ih h

theorem AttrMap.mem_keys_insert (m : AttrMap) (k : Attribute) (v : Static)
    (x : Attribute) (h : x ∈ (AttrMap.insert m k v).map Prod.fst) :
    x ∈ m.map Prod.fst ∨ x = k := by
  induction m with
  | nil => simp [AttrMap.insert] at h; right; exact h
  | cons kv rest ih =>
    obtain ⟨k', v'⟩ := kv
    simp only [AttrMap.insert] at h
    by_cases hk : k' = k
    · rw [if_pos hk] at h
      simp only [List.map_cons, List.mem_cons] at h
      rcases h with h | h
      · right; exact h
      · left; simp [h]
    · rw [if_neg hk] at h
      simp only [List.map_cons, List.mem_cons] at h ⊢
      rcases h with h | h
      · left; left; exact h
      · rcases ih h with h' | h'
        · left; right; exact h'
        · right; exact h'

theorem AttrMap.insert_nodupKeys (m : AttrMap) (k : Attribute) (v : Static)
    (h : AttrMap.NodupKeys m) : AttrMap.NodupKeys (AttrMap.insert m k v) := by
  induction m with
  | nil => simp [AttrMap.insert, AttrMap.NodupKeys]
  | cons kv rest ih =>
    obtain ⟨k', v'⟩ := kv
    simp only [AttrMap.NodupKeys, List.map_cons, List.nodup_cons] at h
    obtain ⟨hk', hrest⟩ := h
    simp only [AttrMap.insert]
    by_cases hk : k' = k
    · rw [if_pos hk]
      subst hk
      show (List.map Prod.fst ((k', v) :: rest)).Nodup
      simp only [List.map_cons, List.nodup_cons]
      exact ⟨hk', hrest⟩
    · rw [if_neg hk]
      simp only [AttrMap.NodupKeys, List.map_cons, List.nodup_cons]
      refine ⟨?_, ih hrest⟩
      intro hmem
      rcases AttrMap.mem_keys_insert rest k v k' hmem with h' | h'
      · exact hk' h'
      · exact hk h'

theorem AttrMap.find?_filter (m : AttrMap) (k : Attribute) (v : Static)
    (p : Attribute × Static → Bool)
    (h : AttrMap.find? m k = some v) (hp : p (k, v) = true) :
    AttrMap.find? (m.filter p) k = some v := by
  induction m with
  | nil => simp [AttrMap.find?] at h
  | cons kv rest ih =>
    obtain ⟨k', v'⟩ := kv
    simp only [AttrMap.find?] at h
    by_cases hk : k' = k
    · rw [if_pos hk] at h
      subst hk
      cases h
      simp [List.filter_cons, hp, AttrMap.find?]
    · rw [if_neg hk] at h
      by_cases hpk : p (k', v') = true
      · simpa [List.filter_cons, hpk, AttrMap.find?, hk] using ih h
      · simpa [List.filter_cons, hpk] using ih h

theorem insertIfAbsent_find?_ne (a : AttrMap) (k k' : Attribute) (v' : Static)
    (h : k' ≠ k) :
    AttrMap.find? (insertIfAbsent a k' v') k = AttrMap.find? a k := by
  unfold insertIfAbsent
  split
  · rfl
  · by_cases hs : AttrMap.find? a k = none
    · rw [AttrMap.find?_append_of_none _ _ _ hs, hs]
      simp [AttrMap.find?, h]
    · obtain ⟨w, hw⟩ := Option.ne_none_iff_exists'.mp hs
      rw [AttrMap.find?_append_of_some _ _ _ _ hw, hw]

theorem propagateFold_find?_skip (l : AttrMap) (a : AttrMap) (k : Attribute)
    (h : ∀ kv ∈ l, kv.1 ≠ k) :
    AttrMap.find? (l.foldl (fun a kv => insertIfAbsent a kv.1 kv.2) a) k =
      AttrMap.find? a k := by
  induction l generalizing a with
  | nil => rfl
  | cons kv rest ih =>
    simp only [List.foldl_cons]
    rw [ih _ fun x hx => h x (List.mem_cons_of_mem _ hx)]
    exact insertIfAbsent_find?_ne a k kv.1 kv.2 (h kv (List.mem_cons_self _ _))

theorem propagateFold_find? (l : AttrMap) (a : AttrMap) (k : Attribute) (v : Static)
    (hnd : AttrMap.NodupKeys l) (hv : AttrMap.find? l k = some v)
    (ha : AttrMap.find? a k = none) :
    AttrMap.find? (l.foldl (fun a kv => insertIfAbsent a kv.1 kv.2) a) k = some v := by
  induction l generalizing a with
  | nil => simp [AttrMap.find?] at hv
  | cons kv rest ih =>
    obtain ⟨k', v'⟩ := kv
    simp only [AttrMap.find?] at hv
    simp only [AttrMap.NodupKeys, List.map_cons, List.nodup_cons] at hnd
    obtain ⟨hk', hrest⟩ := hnd
    simp only [List.foldl_cons]
    by_cases hk : k' = k
    · subst hk
      rw [if_pos rfl] at hv
      cases hv
      rw [propagateFold_find?_skip]
      · unfold insertIfAbsent
        rw [ha]
        simp only [Option.isSome_none, Bool.false_eq_true, if_false]
        rw [AttrMap.find?_append_of_none _ _ _ ha]
        simp [AttrMap.find?]
      · intro x hx hxk
        exact hk' (hxk ▸ List.mem_map_of_mem Prod.fst hx)
    · rw [if_neg hk] at hv
      refine ih _ hrest hv ?_
      rw [insertIfAbsent_find?_ne a k k' v' hk]
      exact ha

/-- A fold that only performs `AttrMap.insert` steps preserves key
distinctness. -/
theorem foldl_insert_nodupKeys {β : Type} (l : List β)
    (step : AttrMap → β → AttrMap)
    (hstep : ∀ m b, AttrMap.NodupKeys m → AttrMap.NodupKeys (step m b))
    (a : AttrMap) (ha : AttrMap.NodupKeys a) :
    AttrMap.NodupKeys (l.foldl step a) := by
  induction l generalizing a with
  | nil => exact ha
  | cons b rest ih => exact ih _ (hstep a b ha)

theorem batchCollectorCollect_nodupKeys (oe : List (String × OtherValue)) :
    AttrMap.NodupKeys (batchCollectorCollect oe).1 := by
  unfold batchCollectorCollect
  suffices h : ∀ acc : AttrMap × List Span, AttrMap.NodupKeys acc.1 →
      AttrMap.NodupKeys (oe.foldl
        (fun acc kv =>
          match kv.2 with
          | .span sp => (acc.1, acc.2 ++ [sp])
          | .static v => (AttrMap.insert acc.1 (newResAttr kv.1) v, acc.2)
          | _ => acc) acc).1 by
    exact h ([], []) (by simp [AttrMap.NodupKeys])
  induction oe with
  | nil => intro acc h; exact h
  | cons kv rest ih =>
    intro acc h
    simp only [List.foldl_cons]
    rcases kv with ⟨key, ov⟩
    rcases ov with v | sp | ss
    · exact ih _ (AttrMap.insert_nodupKeys _ _ _ h)
    · exact ih _ h
    · exact ih _ h

theorem batchCollectorEntryAttrs_nodupKeys (resAttrs : AttrMap)
    (entries : List (String × PqValue)) (h : AttrMap.NodupKeys resAttrs) :
    AttrMap.NodupKeys (batchCollectorEntryAttrs resAttrs entries) := by
  unfold batchCollectorEntryAttrs
  refine foldl_insert_nodupKeys entries _ ?_ resAttrs h
  intro m e hm
  rcases e with ⟨key, pv⟩
  rcases pv <;> first
    | exact hm
    | exact AttrMap.insert_nodupKeys _ _ _ hm

/-- C4 (amended): every resource-scoped attribute collected for a kept batch
whose value has non-nil type is present on every span returned from that
batch, unless the originating span already carried an attribute under that
exact (resource-scoped) key; and attributes of nil type are absent from every
returned span. (A same-name span-scoped attribute does not shadow the
resource attribute — see the counterexample.) -/
theorem C4_resource_attr_propagation (c : BatchCollector)
    (res res' : IteratorResult)
    (h : batchCollectorKeepGroup c res = (true, res')) :
    ∀ ss : Spanset, ("spanset", OtherValue.spanset ss) ∈ res'.otherEntries →
      ∀ sp ∈ ss.spans,
        (∀ kv ∈ sp.attributes, kv.2.sType ≠ .nil) ∧
        ∃ sp0 ∈ (batchCollectorCollect res.otherEntries).2,
          ∀ k v,
            AttrMap.find? (batchCollectorEntryAttrs
              (batchCollectorCollect res.otherEntries).1 res.entries) k = some v →
            AttrMap.find? sp0.attributes k = none → v.sType ≠ .nil →
            AttrMap.find? sp.attributes k = some v := by
  intro ss hss sp hsp
  have main : ∀ sp0 ∈ (batchCollectorCollect res.otherEntries).2,
      sp = removeNilAttrs (propagateResAttrs (batchCollectorEntryAttrs
        (batchCollectorCollect res.otherEntries).1 res.entries) sp0) →
      (∀ kv ∈ sp.attributes, kv.2.sType ≠ .nil) ∧
      ∃ sp0 ∈ (batchCollectorCollect res.otherEntries).2,
        ∀ k v,
          AttrMap.find? (batchCollectorEntryAttrs
            (batchCollectorCollect res.otherEntries).1 res.entries) k = some v →
          AttrMap.find? sp0.attributes k = none → v.sType ≠ .nil →
          AttrMap.find? sp.attributes k = some v := by
    intro sp0 hsp0 hspEq
    subst hspEq
    constructor
    · intro kv hkv
      simpa using (List.mem_filter.mp hkv).2
    · refine ⟨sp0, hsp0, ?_⟩
      intro k v hv habs hnil
      have hnd : AttrMap.NodupKeys (batchCollectorEntryAttrs
          (batchCollectorCollect res.otherEntries).1 res.entries) :=
        batchCollectorEntryAttrs_nodupKeys _ _ (batchCollectorCollect_nodupKeys _)
      have step1 : AttrMap.find?
          (propagateResAttrs (batchCollectorEntryAttrs
            (batchCollectorCollect res.otherEntries).1 res.entries) sp0).attributes
          k = some v := by
        simpa [propagateResAttrs] using
          propagateFold_find? _ sp0.attributes k v hnd hv habs
      show AttrMap.find?
        ((propagateResAttrs _ sp0).attributes.filter
          fun kv => decide (kv.2.sType ≠ .nil)) k = some v
      exact AttrMap.find?_filter _ k v _ step1 (by simpa using hnil)
  simp only [batchCollectorKeepGroup] at h
  split at h
  · simp at h
  · split at h
    · simp at h
    · split at h
      · split at h
        · simp at h
        · injection h with h1 h2
          subst h2
          simp only [List.mem_singleton, Prod.mk.injEq,
            OtherValue.spanset.injEq] at hss
          obtain ⟨-, hss⟩ := hss
          subst hss
          obtain ⟨sp0, hsp0, hspEq⟩ :=
            List.mem_map.mp (List.mem_of_mem_filter hsp)
          exact main sp0 hsp0 hspEq.symm
      · split at h
        · simp at h
        · injection h with h1 h2
          subst h2
          simp only [List.mem_singleton, Prod.mk.injEq,
            OtherValue.spanset.injEq] at hss
          obtain ⟨-, hss⟩ := hss
          subst hss
          obtain ⟨sp0, hsp0, hspEq⟩ := List.mem_map.mp hsp
          exact main sp0 hsp0 hspEq.symm

/-- C4 counterexample: a batch whose resource attributes hold `foo="bar"` and
whose only span carries the span-scoped attribute `foo="baz"`. The claim says
the resource attribute is shadowed (absent from the returned span); the code
keys the map by the full scoped attribute, so the returned span carries both
the span-scoped and the resource-scoped `foo`. -/
theorem C4_counterexample :
    batchCollectorKeepGroup ⟨true, 0⟩
        ⟨[], [("sp", .span ⟨"", 0, 0, [(newSpanAttr "foo", .str "baz")]⟩),
              ("foo", .static (.str "bar"))]⟩ =
      (true, ⟨[], [("spanset", .spanset ⟨[⟨"", 0, 0,
        [(newSpanAttr "foo", .str "baz"), (newResAttr "foo", .str "bar")]⟩]⟩)]⟩) := by
  rfl

theorem C4_resource_attr_propagation_witness :
    let res : IteratorResult :=
      ⟨[], [("sp", .span ⟨"", 0, 0, []⟩), ("foo", .static (.str "bar"))]⟩
    let sp : Span := ⟨"", 0, 0, [(newResAttr "foo", .str "bar")]⟩
    (∀ kv ∈ sp.attributes, kv.2.sType ≠ .nil) ∧
      ∃ sp0 ∈ (batchCollectorCollect res.otherEntries).2,
        ∀ k v,
          AttrMap.find? (batchCollectorEntryAttrs
            (batchCollectorCollect res.otherEntries).1 res.entries) k = some v →
          AttrMap.find? sp0.attributes k = none → v.sType ≠ .nil →
          AttrMap.find? sp.attributes k = some v := by
  intro res sp
  exact C4_resource_attr_propagation ⟨true, 0⟩ res
    ⟨[], [("spanset", .spanset ⟨[sp]⟩)]⟩ (by rfl) ⟨[sp]⟩ (by simp) sp (by simp)

/-! ## Time-window filters (C5) -/

/-- `math.MaxInt64`. -/
def maxInt64 : Int := 2 ^ 63 - 1

/-- Modelled from the spec: `parquetquery.NewIntBetweenPredicate`
(pkg/parquetquery, not under src/) — the range predicate used for the time
window: keeps a value `v` iff `min ≤ v ≤ max`. -/
structure IntBetweenPredicate where
  minV : Int
  maxV : Int
  deriving DecidableEq, Repr

/-- `keepValue` of the between-predicate. -/
def IntBetweenPredicate.keep (p : IntBetweenPredicate) (v : Int) : Bool :=
  decide (p.minV ≤ v) && decide (v ≤ p.maxV)

/-- The time-window filter construction in `createSpanIterator`
(block_traceql.go:466-474): when both request bounds are positive, the
span-start column is filtered by `[0, int64(req.End)]` and the span-end
column by `[int64(req.Start), MaxInt64]`; otherwise both filters are nil. -/
def spanTimeFilters (start end_ : Nat) :
    Option (IntBetweenPredicate × IntBetweenPredicate) :=
  if start > 0 ∧ end_ > 0 then
    some (⟨0, int64OfUInt64 end_⟩, ⟨int64OfUInt64 start, maxInt64⟩)
  else
    none

theorem spanOtherStep_start (sp : Span) (e : String × OtherValue) :
    (spanOtherStep sp e).startTimeUnixNanos = sp.startTimeUnixNanos := by
  unfold spanOtherStep
  rcases e with ⟨k, v⟩
  rcases v <;> rfl

theorem spanOtherStep_end (sp : Span) (e : String × OtherValue) :
    (spanOtherStep sp e).endtimeUnixNanos = sp.endtimeUnixNanos := by
  unfold spanOtherStep
  rcases e with ⟨k, v⟩
  rcases v <;> rfl

theorem otherFold_start (oe : List (String × OtherValue)) (sp : Span) :
    (oe.foldl spanOtherStep sp).startTimeUnixNanos = sp.startTimeUnixNanos := by
  induction oe generalizing sp with
  | nil => rfl
  | cons e rest ih => rw [List.foldl_cons, ih, spanOtherStep_start]

theorem otherFold_end (oe : List (String × OtherValue)) (sp : Span) :
    (oe.foldl spanOtherStep sp).endtimeUnixNanos = sp.endtimeUnixNanos := by
  induction oe generalizing sp with
  | nil => rfl
  | cons e rest ih => rw [List.foldl_cons, ih, spanOtherStep_end]

theorem spanEntryStep_start_le (sp : Span) (kv : String × PqValue) (bound : Nat)
    (hsp : sp.startTimeUnixNanos ≤ bound)
    (h : kv.1 = columnPathSpanStartTime → kv.2.uint64V ≤ bound) :
    (spanEntryStep sp kv).startTimeUnixNanos ≤ bound := by
  unfold spanEntryStep
  split_ifs with h1 h2 h3 h4 h5
  · exact hsp
  · exact h h2
  · exact hsp
  · exact hsp
  · exact hsp
  · rcases kv with ⟨k, v⟩
    rcases v <;> exact hsp

theorem spanEntryStep_end_preserve (sp : Span) (kv : String × PqValue)
    (h : kv.1 ≠ columnPathSpanEndTime) :
    (spanEntryStep sp kv).endtimeUnixNanos = sp.endtimeUnixNanos := by
  unfold spanEntryStep
  split_ifs with h1 h2 h3 h4
  · rfl
  · rfl
  · rfl
  · rfl
  · rcases kv with ⟨k, v⟩
    rcases v <;> rfl

theorem spanEntryStep_end_set (sp : Span) (kv : String × PqValue)
    (h : kv.1 = columnPathSpanEndTime) :
    (spanEntryStep sp kv).endtimeUnixNanos = kv.2.uint64V := by
  unfold spanEntryStep
  rw [if_neg (by rw [h]; decide), if_neg (by rw [h]; decide), if_pos h]

theorem entryFold_start_le (l : List (String × PqValue)) (sp : Span) (bound : Nat)
    (hsp : sp.startTimeUnixNanos ≤ bound)
    (h : ∀ kv ∈ l, kv.1 = columnPathSpanStartTime → kv.2.uint64V ≤ bound) :
    (l.foldl spanEntryStep sp).startTimeUnixNanos ≤ bound := by
  induction l generalizing sp with
  | nil => exact hsp
  | cons kv rest ih =>
    rw [List.foldl_cons]
    exact ih _ (spanEntryStep_start_le sp kv bound hsp (h kv (by simp)))
      fun x hx => h x (List.mem_cons_of_mem _ hx)

theorem entryFold_end_preserve (l : List (String × PqValue)) (sp : Span)
    (h : ∀ kv ∈ l, kv.1 ≠ columnPathSpanEndTime) :
    (l.foldl spanEntryStep sp).endtimeUnixNanos = sp.endtimeUnixNanos := by
  induction l generalizing sp with
  | nil => rfl
  | cons kv rest ih =>
    rw [List.foldl_cons, ih _ fun x hx => h x (List.mem_cons_of_mem _ hx),
      spanEntryStep_end_preserve sp kv (h kv (by simp))]

theorem entryFold_end_ge (l : List (String × PqValue)) (sp : Span) (lb : Nat)
    (hex : ∃ kv ∈ l, kv.1 = columnPathSpanEndTime)
    (hall : ∀ kv ∈ l, kv.1 = columnPathSpanEndTime → lb ≤ kv.2.uint64V) :
    lb ≤ (l.foldl spanEntryStep sp).endtimeUnixNanos := by
  induction l generalizing sp with
  | nil => simp at hex
  | cons kv rest ih =>
    rw [List.foldl_cons]
    by_cases hrest : ∃ x ∈ rest, x.1 = columnPathSpanEndTime
    · exact ih _ hrest fun x hx => hall x (List.mem_cons_of_mem _ hx)
    · push_neg at hrest
      obtain ⟨x, hxmem, hx⟩ := hex
      rcases List.mem_cons.mp hxmem with rfl | hxr
      · rw [entryFold_end_preserve rest _ hrest, spanEntryStep_end_set sp x hx]
        exact hall x (by simp) hx
      · exact absurd hx (hrest x hxr)

theorem buildSpan_start (c : SpanCollector) (res : IteratorResult) :
    (spanCollectorBuildSpan c res).startTimeUnixNanos =
      (res.entries.foldl spanEntryStep
        (res.otherEntries.foldl spanOtherStep
          ⟨"", 0, 0, []⟩)).startTimeUnixNanos := by
  simp only [spanCollectorBuildSpan]
  split_ifs <;> rfl

theorem buildSpan_end (c : SpanCollector) (res : IteratorResult) :
    (spanCollectorBuildSpan c res).endtimeUnixNanos =
      (res.entries.foldl spanEntryStep
        (res.otherEntries.foldl spanOtherStep
          ⟨"", 0, 0, []⟩)).endtimeUnixNanos := by
  simp only [spanCollectorBuildSpan]
  split_ifs <;> rfl

theorem uint64V_lt (v : PqValue) : v.uint64V < 2 ^ 64 := by
  rcases v <;> simp [PqValue.uint64V] <;> omega

theorem startFilter_bound (u bound : Nat) (hu : u < 2 ^ 64) (hb : bound < 2 ^ 63)
    (h : IntBetweenPredicate.keep ⟨0, int64OfUInt64 bound⟩ (int64OfUInt64 u) = true) :
    u ≤ bound := by
  unfold IntBetweenPredicate.keep int64OfUInt64 at h
  simp only [Bool.and_eq_true, decide_eq_true_eq] at h
  rw [Nat.mod_eq_of_lt hu, Nat.mod_eq_of_lt (by omega : bound < 2 ^ 64)] at h
  split at h <;> omega

theorem endFilter_bound (u lb : Nat) (hu : u < 2 ^ 64) (hlb0 : 0 < lb)
    (hlb : lb < 2 ^ 63)
    (h : IntBetweenPredicate.keep ⟨int64OfUInt64 lb, maxInt64⟩ (int64OfUInt64 u) = true) :
    lb ≤ u := by
  unfold IntBetweenPredicate.keep int64OfUInt64 maxInt64 at h
  simp only [Bool.and_eq_true, decide_eq_true_eq] at h
  rw [Nat.mod_eq_of_lt hu, Nat.mod_eq_of_lt (by omega : lb < 2 ^ 64)] at h
  split at h <;> omega

/-- C5: when both request bounds are positive, the span-start column is
filtered by a predicate accepting `[0, req.end]` and the span-end column by
one accepting `[req.start, MaxInt64]`; and every span assembled by the span
collector from column entries that passed those predicates (the
column-iterator contract, modelled from the spec: `makeIter` applies the
predicate before emitting values) satisfies `spanStart ≤ req.end` and
`spanEnd ≥ req.start`. -/
theorem C5_time_window (start end_ : Nat) (sf ef : IntBetweenPredicate)
    (c : SpanCollector) (res : IteratorResult)
    (hs : 0 < start) (he : 0 < end_)
    (hs63 : start < 2 ^ 63) (he63 : end_ < 2 ^ 63)
    (hf : spanTimeFilters start end_ = some (sf, ef))
    (hstart : ∀ kv ∈ res.entries, kv.1 = columnPathSpanStartTime →
      sf.keep (int64OfUInt64 kv.2.uint64V) = true)
    (hend : ∀ kv ∈ res.entries, kv.1 = columnPathSpanEndTime →
      ef.keep (int64OfUInt64 kv.2.uint64V) = true)
    (hex : ∃ kv ∈ res.entries, kv.1 = columnPathSpanEndTime) :
    sf = ⟨0, int64OfUInt64 end_⟩ ∧ ef = ⟨int64OfUInt64 start, maxInt64⟩ ∧
    (spanCollectorBuildSpan c res).startTimeUnixNanos ≤ end_ ∧
    start ≤ (spanCollectorBuildSpan c res).endtimeUnixNanos := by
  unfold spanTimeFilters at hf
  rw [if_pos ⟨hs, he⟩] at hf
  simp only [Option.some.injEq, Prod.mk.injEq] at hf
  obtain ⟨hsf, hef⟩ := hf
  subst hsf
  subst hef
  refine ⟨rfl, rfl, ?_, ?_⟩
  · rw [buildSpan_start]
    refine entryFold_start_le _ _ _ ?_ ?_
    · rw [otherFold_start]
      exact Nat.zero_le _
    · intro kv hkv hk
      exact startFilter_bound _ _ (uint64V_lt kv.2) he63 (hstart kv hkv hk)
  · rw [buildSpan_end]
    refine entryFold_end_ge _ _ _ hex ?_
    intro kv hkv hk
    exact endFilter_bound _ _ (uint64V_lt kv.2) hs hs63 (hend kv hkv hk)

theorem C5_time_window_witness :
    let res : IteratorResult :=
      ⟨[(columnPathSpanStartTime, .int64 5), (columnPathSpanEndTime, .int64 7)], []⟩
    let c : SpanCollector := ⟨0, []⟩
    IntBetweenPredicate.mk 0 (int64OfUInt64 10) = ⟨0, int64OfUInt64 10⟩ ∧
    IntBetweenPredicate.mk (int64OfUInt64 6) maxInt64 = ⟨int64OfUInt64 6, maxInt64⟩ ∧
    (spanCollectorBuildSpan c res).startTimeUnixNanos ≤ 10 ∧
    6 ≤ (spanCollectorBuildSpan c res).endtimeUnixNanos := by
  intro res c
  exact C5_time_window 6 10 ⟨0, int64OfUInt64 10⟩ ⟨int64OfUInt64 6, maxInt64⟩ c res
    (by decide) (by decide) (by decide) (by decide) (by rfl)
    (by decide) (by decide) ⟨(columnPathSpanEndTime, .int64 7), by decide, rfl⟩

/-! ## Query-frontend SLO hook (C7) -/

/-- `SLOConfig` (the fields consulted by `sloHook`): `DurationSLO` is a
`time.Duration` (nanoseconds), `ThroughputBytesSLO` a `float64`. -/
structure SLOConfig where
  durationSLO : Int
  throughputBytesSLO : ℚ
  deriving DecidableEq, Repr

/-- The error classification consulted by `sloHook`: a gRPC
resource-exhausted status, a `context.Canceled`, or any other error. -/
inductive GrpcErr where
  | resourceExhausted
  | canceled
  | otherErr
  deriving DecidableEq, Repr

/-- `sloHook` (src/unnamed/part_000:134-183): whether one invocation of the
returned handler increments the within-SLO counter. `respStatus` is
`resp.StatusCode` when `resp != nil`; `latency` is in nanoseconds and
`latency.Seconds()` is `latency / 1e9`. -/
def sloHookIncrements (cfg : SLOConfig) (respStatus : Option Int)
    (bytesProcessed : Nat) (latency : Int) (err : Option GrpcErr) : Bool :=
  match err with
  | some .resourceExhausted => true
  | some .canceled => true
  | some .otherErr => false
  | none =>
    -- all 200s/300s/400s are success
    if (match respStatus with
        | some code => decide (code ≥ 500)
        | none => false) then
      false
    else
      let seconds : ℚ := (latency : ℚ) / 1000000000
      let throughput : ℚ :=
        if 0 < seconds then (bytesProcessed : ℚ) / seconds else 0
      let passedThroughput : Bool :=
        decide (0 < cfg.throughputBytesSLO) &&
          decide (cfg.throughputBytesSLO ≤ throughput)
      let passedDuration : Bool :=
        decide (0 < cfg.durationSLO) &&
          (decide (cfg.durationSLO = 0) || decide (latency < cfg.durationSLO))
      let hasConfiguredSLO : Bool :=
        decide (0 < cfg.durationSLO) || decide (0 < cfg.throughputBytesSLO)
      if !passedDuration && !passedThroughput && hasConfiguredSLO then
        false
      else
        true

/-- The throughput figure computed by `sloHook`
(bytes per second, 0 when the latency is not positive). -/
def sloThroughput (bytesProcessed : Nat) (latency : Int) : ℚ :=
  if 0 < ((latency : ℚ) / 1000000000) then
    (bytesProcessed : ℚ) / ((latency : ℚ) / 1000000000)
  else
    0

/-- The claim's SLO rule, stated from the spec's words (for comparison with
`sloHookIncrements`): when at least one bound is configured, increment iff
`latency < DurationSLO ∨ throughput ≥ ThroughputBytesSLO`. -/
def sloClaimIncrements (cfg : SLOConfig) (respStatus : Option Int)
    (bytesProcessed : Nat) (latency : Int) (err : Option GrpcErr) : Bool :=
  match err with
  | some .resourceExhausted => true
  | some .canceled => true
  | some .otherErr => false
  | none =>
    if (match respStatus with
        | some code => decide (code ≥ 500)
        | none => false) then
      false
    else if 0 < cfg.durationSLO ∨ 0 < cfg.throughputBytesSLO then
      decide (latency < cfg.durationSLO) ||
        decide (cfg.throughputBytesSLO ≤ sloThroughput bytesProcessed latency)
    else
      true

/-- C7 counterexample: `DurationSLO = 1ns`, `ThroughputBytesSLO = 0`
(unconfigured), a 200 response with latency 2ns. The claim's rule
("incremented iff latency < DurationSLO or throughput ≥ ThroughputBytesSLO")
increments, because any throughput is `≥ 0`; the code does not, because
`passedThroughput` is only computed when `ThroughputBytesSLO > 0`. -/
theorem C7_counterexample :
    sloHookIncrements ⟨1, 0⟩ (some 200) 0 2 none = false ∧
    sloClaimIncrements ⟨1, 0⟩ (some 200) 0 2 none = true := by
  constructor
  · rfl
  · norm_num [sloClaimIncrements, sloThroughput]

/-- C7 (amended): on error, the counter is incremented iff the error is
resource-exhausted or a context cancellation; a response with status ≥ 500 is
never counted; otherwise the counter is incremented iff
`(DurationSLO > 0 ∧ latency < DurationSLO) ∨ (ThroughputBytesSLO > 0 ∧
throughput ≥ ThroughputBytesSLO)`, or neither bound is configured (in which
case it is always incremented). -/
theorem C7_slo_hook (cfg : SLOConfig) (respStatus : Option Int)
    (bytesProcessed : Nat) (latency : Int) (err : Option GrpcErr) :
    ((err = some .resourceExhausted ∨ err = some .canceled) →
      sloHookIncrements cfg respStatus bytesProcessed latency err = true) ∧
    (err = some .otherErr →
      sloHookIncrements cfg respStatus bytesProcessed latency err = false) ∧
    (∀ code, err = none → respStatus = some code → 500 ≤ code →
      sloHookIncrements cfg respStatus bytesProcessed latency err = false) ∧
    (∀ code, err = none → respStatus = some code → code < 500 →
      sloHookIncrements cfg respStatus bytesProcessed latency err =
        (decide (0 < cfg.durationSLO) && decide (latency < cfg.durationSLO) ||
         decide (0 < cfg.throughputBytesSLO) &&
           decide (cfg.throughputBytesSLO ≤ sloThroughput bytesProcessed latency) ||
         !(decide (0 < cfg.durationSLO) || decide (0 < cfg.throughputBytesSLO)))) := by
  refine ⟨?_, ?_, ?_, ?_⟩
  · rintro (rfl | rfl) <;> rfl
  · rintro rfl; rfl
  · rintro code rfl rfl hcode
    simp [sloHookIncrements, hcode]
  · rintro code rfl rfl hcode
    have hc : ¬(code ≥ 500) := by omega
    have hpd : (decide (0 < cfg.durationSLO) &&
        (decide (cfg.durationSLO = 0) || decide (latency < cfg.durationSLO))) =
        (decide (0 < cfg.durationSLO) && decide (latency < cfg.durationSLO)) := by
      by_cases hd : 0 < cfg.durationSLO
      · have hd0 : ¬(cfg.durationSLO = 0) := by omega
        simp [hd, hd0]
      · simp [hd]
    simp only [sloHookIncrements, sloThroughput, decide_eq_false hc,
      Bool.false_eq_true, if_false]
    rw [hpd]
    generalize decide (0 < cfg.durationSLO) = a
    generalize decide (latency < cfg.durationSLO) = b
    generalize decide (0 < cfg.throughputBytesSLO) = c
    generalize decide (cfg.throughputBytesSLO ≤
      (if 0 < ((latency : ℚ) / 1000000000) then
        (bytesProcessed : ℚ) / ((latency : ℚ) / 1000000000) else 0)) = d
    cases a <;> cases b <;> cases c <;> cases d <;> rfl

theorem C7_slo_hook_witness :
    sloHookIncrements ⟨1000, 0⟩ (some 200) 0 5 none =
      (decide ((0 : Int) < 1000) && decide ((5 : Int) < 1000) ||
       decide ((0 : ℚ) < 0) && decide ((0 : ℚ) ≤ sloThroughput 0 5) ||
       !(decide ((0 : Int) < 1000) || decide ((0 : ℚ) < 0))) :=
  (C7_slo_hook ⟨1000, 0⟩ (some 200) 0 5 none).2.2.2 200 rfl rfl (by decide)

/-! ## Plan descriptors and `createResourceColumIterators` (C8) -/

/-- Remaining column-path constants (block_traceql.go:29-33). -/
def columnPathResourceAttrKey : String := "rs.Resource.Attrs.Key"

def columnPathResourceAttrString : String := "rs.Resource.Attrs.Value"

def columnPathResourceAttrInt : String := "rs.Resource.Attrs.ValueInt"

def columnPathResourceAttrDouble : String := "rs.Resource.Attrs.ValueDouble"

def columnPathResourceAttrBool : String := "rs.Resource.Attrs.ValueBool"

def columnPathResourceServiceName : String := "rs.Resource.ServiceName"

def columnPathResourceCluster : String := "rs.Resource.Cluster"

def columnPathResourceNamespace : String := "rs.Resource.Namespace"

def columnPathResourcePod : String := "rs.Resource.Pod"

def columnPathResourceContainer : String := "rs.Resource.Container"

def columnPathResourceK8sClusterName : String := "rs.Resource.K8sClusterName"

def columnPathResourceK8sNamespaceName : String := "rs.Resource.K8sNamespaceName"

def columnPathResourceK8sPodName : String := "rs.Resource.K8sPodName"

def columnPathResourceK8sContainerName : String := "rs.Resource.K8sContainerName"

def columnPathSpanHTTPStatusCode : String := "rs.ils.Spans.HttpStatusCode"

def columnPathSpanHTTPMethod : String := "rs.ils.Spans.HttpMethod"

def columnPathSpanHTTPURL : String := "rs.ils.Spans.HttpUrl"

/-- Modelled from the spec: the well-known attribute labels (their literal
values are defined in the vparquet schema file, not under src/; the spec lists
service name, cluster, namespace, pod, container, k8s.*, http.*). -/
def LabelServiceName : String := "service.name"

def LabelCluster : String := "cluster"

def LabelNamespace : String := "namespace"

def LabelPod : String := "pod"

def LabelContainer : String := "container"

def LabelK8sClusterName : String := "k8s.cluster.name"

def LabelK8sNamespaceName : String := "k8s.namespace.name"

def LabelK8sPodName : String := "k8s.pod.name"

def LabelK8sContainerName : String := "k8s.container.name"

def LabelHTTPStatusCode : String := "http.status_code"

def LabelHTTPMethod : String := "http.method"

def LabelHTTPUrl : String := "http.url"

/-- `wellKnownColumnLookups` (block_traceql.go:71-91), as an association list
(the Go map's iteration order is randomized; only lookups and the
`withAllWellKnownColumns` loop iterate it, the latter modelled in insertion
order). Entries are `(label, (columnPath, level, type))`. -/
def wellKnownColumnLookups :
    List (String × String × AttributeScope × StaticType) :=
  [(LabelServiceName, columnPathResourceServiceName, .resource, .string),
   (LabelCluster, columnPathResourceCluster, .resource, .string),
   (LabelNamespace, columnPathResourceNamespace, .resource, .string),
   (LabelPod, columnPathResourcePod, .resource, .string),
   (LabelContainer, columnPathResourceContainer, .resource, .string),
   (LabelK8sClusterName, columnPathResourceK8sClusterName, .resource, .string),
   (LabelK8sNamespaceName, columnPathResourceK8sNamespaceName, .resource, .string),
   (LabelK8sPodName, columnPathResourceK8sPodName, .resource, .string),
   (LabelK8sContainerName, columnPathResourceK8sContainerName, .resource, .string),
   (LabelHTTPStatusCode, columnPathSpanHTTPStatusCode, .span, .int),
   (LabelHTTPMethod, columnPathSpanHTTPMethod, .span, .string),
   (LabelHTTPUrl, columnPathSpanHTTPURL, .span, .string)]

/-- Symbolic descriptor of a `parquetquery.Predicate` as built by this file
(`nilP` is the nil predicate; `nonEmptyString` the collection predicate built
in the `withAllWellKnownColumns` blocks). -/
inductive PredDescr where
  | nilP
  | stringIn (ss : List String)
  | stringNe (s : String)
  | regexIn (ss : List String)
  | intPred (op : Operator) (i : Int)
  | floatPred (op : Operator) (f : ℚ)
  | boolPred (b : Bool)
  | orP (ps : List PredDescr)
  | nonEmptyString

/-- Symbolic descriptor of a `parquetquery.Iterator` as built by this file. -/
inductive IterDescr where
  | col (path : String) (pred : PredDescr) (selectAs : String)
  | leftJoin (definitionLevel : Nat) (required : List IterDescr)
      (optional : List IterDescr) (collector : String)

/-- Modelled from the spec: the definition-level constants of the vparquet
schema (schema file not under src/); only their identities matter here. -/
def DefinitionLevelTrace : Nat := 0

def DefinitionLevelResourceSpans : Nat := 1

def DefinitionLevelResourceAttrs : Nat := 2

def DefinitionLevelResourceSpansILSSpan : Nat := 3

def DefinitionLevelResourceSpansILSSpanAttrs : Nat := 4

/-- `createStringPredicate` (block_traceql.go:686-723) at descriptor level.
Reading `operands[0].S` of an empty operand list is a Go panic, modelled as
an error (unreachable behind `checkConditions`). -/
def createStringPredicateD (op : Operator) (operands : List Static) :
    Except String PredDescr :=
  if op = .opNone then .ok .nilP
  else if operands.any (fun o => decide (o.sType ≠ .string)) then
    .error "operand is not string"
  else
    match operands with
    | .str s :: _ =>
      match op with
      | .eq => .ok (.stringIn [s])
      | .ne => .ok (.stringNe s)
      | .regex => .ok (.regexIn [s])
      | _ => .error "operand not supported for strings"
    | _ => .error "index out of range"

/-- `createIntPredicate` (block_traceql.go:725-767) at descriptor level. -/
def createIntPredicateD (op : Operator) (operands : List Static) :
    Except String PredDescr :=
  if op = .opNone then .ok .nilP
  else
    match operands with
    | .int n :: _ => intDescrFor op n
    | .duration d :: _ => intDescrFor op d
    | _ => .error "operand is not int or duration"
where
  intDescrFor (op : Operator) (i : Int) : Except String PredDescr :=
    match op with
    | .eq | .ne | .gt | .ge | .lt | .le => .ok (.intPred op i)
    | _ => .error "operand not supported for integers"

/-- `createFloatPredicate` (block_traceql.go:813-852) at descriptor level. -/
def createFloatPredicateD (op : Operator) (operands : List Static) :
    Except String PredDescr :=
  if op = .opNone then .ok .nilP
  else
    match operands with
    | .float f :: _ =>
      match op with
      | .eq | .ne | .gt | .ge | .lt | .le => .ok (.floatPred op f)
      | _ => .error "operand not supported for floats"
    | _ => .error "operand is not float"

/-- `createBoolPredicate` (block_traceql.go:854-874) at descriptor level. -/
def createBoolPredicateD (op : Operator) (operands : List Static) :
    Except String PredDescr :=
  if op = .opNone then .ok .nilP
  else
    match operands with
    | .bool b :: _ =>
      match op with
      | .eq => .ok (.boolPred b)
      | .ne => .ok (.boolPred !b)
      | _ => .error "operand not supported for booleans"
    | _ => .error "operand is not bool"

/-- `createPredicate` (block_traceql.go:667-684) at descriptor level. -/
def createPredicateD (op : Operator) (operands : List Static) :
    Except String PredDescr :=
  if op = .opNone then .ok .nilP
  else
    match operands with
    | o :: _ =>
      match o.sType with
      | .string => createStringPredicateD op operands
      | .int => createIntPredicateD op operands
      | .float => createFloatPredicateD op operands
      | .boolean => createBoolPredicateD op operands
      | _ => .error "cannot create predicate for operand"
    | [] => .error "index out of range"

/-- The per-condition loop of `createAttributeIterator`
(block_traceql.go:886-930): accumulates the key list and the per-type
predicate lists. A condition whose operand type is none of
string/int/float/bool adds no predicate (the Go type switch has no default
case); `operands[0]` of an empty list is a Go panic, modelled as an error. -/
def attrCondLoop :
    List Condition →
    List String × List PredDescr × List PredDescr × List PredDescr × List PredDescr →
    Except String
      (List String × List PredDescr × List PredDescr × List PredDescr × List PredDescr)
  | [], acc => .ok acc
  | cond :: rest, (keys, sps, ips, fps, bps) =>
    let keys := keys ++ [cond.attr.name]
    if cond.op = .opNone then
      attrCondLoop rest
        (keys, sps ++ [.nilP], ips ++ [.nilP], fps ++ [.nilP], bps ++ [.nilP])
    else
      match cond.operands with
      | [] => .error "index out of range"
      | o :: _ =>
        match o.sType with
        | .string => do
          let p ← createStringPredicateD cond.op cond.operands
          attrCondLoop rest (keys, sps ++ [p], ips, fps, bps)
        | .int => do
          let p ← createIntPredicateD cond.op cond.operands
          attrCondLoop rest (keys, sps, ips ++ [p], fps, bps)
        | .float => do
          let p ← createFloatPredicateD cond.op cond.operands
          attrCondLoop rest (keys, sps, ips, fps ++ [p], bps)
        | .boolean => do
          let p ← createBoolPredicateD cond.op cond.operands
          attrCondLoop rest (keys, sps, ips, fps, bps ++ [p])
        | _ => attrCondLoop rest (keys, sps, ips, fps, bps)

/-- `createAttributeIterator` (block_traceql.go:876-956) at descriptor level:
a LeftJoin keyed on the attribute-key column with one value iterator per
operand type that appeared. -/
def createAttributeIteratorD (conditions : List Condition)
    (definitionLevel : Nat)
    (keyPath strPath intPath floatPath boolPath : String) :
    Except String (Option IterDescr) := do
  let (attrKeys, sps, ips, fps, bps) ← attrCondLoop conditions ([], [], [], [], [])
  let valueIters : List IterDescr :=
    (if sps.length > 0 then [.col strPath (.orP sps) "string"] else []) ++
    (if ips.length > 0 then [.col intPath (.orP ips) "int"] else []) ++
    (if fps.length > 0 then [.col floatPath (.orP fps) "float"] else []) ++
    (if bps.length > 0 then [.col boolPath (.orP bps) "bool"] else [])
  if valueIters.length > 0 then
    return some (.leftJoin definitionLevel
      [.col keyPath (.stringIn attrKeys) "key"] valueIters "attributeCollector")
  else
    return none

/-- `columnPredicates`: a Go map from column path to the list of predicates
added for it, in first-insertion order. -/
def PredMap := List (String × List PredDescr)

/-- `addPredicate` (block_traceql.go:533-535). -/
def PredMap.add : PredMap → String → PredDescr → PredMap
  | [], path, p => [(path, [p])]
  | (k, ps) :: rest, path, p =>
    if k = path then (k, ps ++ [p]) :: rest
    else (k, ps) :: PredMap.add rest path p

/-- Map membership test (`_, ok := m[k]`). -/
def PredMap.contains (m : PredMap) (k : String) : Bool :=
  (m.lookup k).isSome

/-- `columnSelectAs`: a Go map from column path to select-as name. -/
def StrMap := List (String × String)

/-- Map assignment. -/
def StrMap.set : StrMap → String → String → StrMap
  | [], k, v => [(k, v)]
  | (k', v') :: rest, k, v =>
    if k' = k then (k, v) :: rest else (k', v') :: StrMap.set rest k v

/-- Map read (a missing key reads as the zero value `""` in Go). -/
def StrMap.get (m : StrMap) (k : String) : String :=
  (m.lookup k).getD ""

/-- The per-condition loop of `createResourceColumIterators`
(block_traceql.go:537-559). Accumulates `(columnSelectAs, columnPredicates,
iters, genericConditions)`. -/
def resourceCondLoop :
    List Condition → StrMap × PredMap × List IterDescr × List Condition →
    Except String (StrMap × PredMap × List IterDescr × List Condition)
  | [], acc => .ok acc
  | cond :: rest, (selectAs, preds, iters, gen) =>
    match wellKnownColumnLookups.lookup cond.attr.name with
    | some (colPath, lvl, typ) =>
      if lvl ≠ .span then
        if cond.op = .opNone then
          resourceCondLoop rest
            (selectAs.set colPath cond.attr.name, preds.add colPath .nilP, iters, gen)
        else if typ = operandType cond.operands then do
          let p ← createPredicateD cond.op cond.operands
          resourceCondLoop rest
            (selectAs, preds, iters ++ [.col colPath p cond.attr.name], gen)
        else
          resourceCondLoop rest (selectAs, preds, iters, gen ++ [cond])
      else
        resourceCondLoop rest (selectAs, preds, iters, gen ++ [cond])
    | none => resourceCondLoop rest (selectAs, preds, iters, gen ++ [cond])

/-- `createResourceColumIterators` (block_traceql.go:525-595) at descriptor
level. Note the source flushes `columnPredicates` into the output twice: once
at lines 570-572 and again at lines 590-592. Note also that the
`withAllWellKnownColumns` block tests `columnPredicates[name]` with the
attribute label, while the map is keyed by column path. -/
def createResourceColumIteratorsD (conditions : List Condition)
    (withAllWellKnownColumns : Bool) : Except String (List IterDescr) := do
  let (selectAs0, preds0, iters0, gen) ← resourceCondLoop conditions ([], [], [], [])
  let attrIter ← createAttributeIteratorD gen DefinitionLevelResourceAttrs
    columnPathResourceAttrKey columnPathResourceAttrString columnPathResourceAttrInt
    columnPathResourceAttrDouble columnPathResourceAttrBool
  let iters1 := iters0 ++ (match attrIter with | some it => [it] | none => [])
  let iters2 := iters1 ++
    preds0.map (fun kv => IterDescr.col kv.1 (.orP kv.2) (selectAs0.get kv.1))
  let maps :=
    if withAllWellKnownColumns then
      wellKnownColumnLookups.foldl
        (fun (acc : StrMap × PredMap) entry =>
          let (name, colPath, lvl, _) := entry
          if lvl = .resource ∧ ¬(acc.2.contains name = true) then
            (acc.1.set colPath name, acc.2.add colPath .nonEmptyString)
          else acc)
        (selectAs0, preds0)
    else
      (selectAs0, preds0)
  let iters3 := iters2 ++
    maps.2.map (fun kv => IterDescr.col kv.1 (.orP kv.2) (maps.1.get kv.1))
  return iters3

/-- C8: the claim says each resource-level column iterator appears exactly
once in the output. The code flushes `columnPredicates` into the output list
twice, so a well-known resource condition routed through `columnPredicates`
(e.g. `resource.service.name` with op `none`) yields the same column iterator
twice. This evaluates the embedded function at that input: the `ServiceName`
column iterator is emitted twice. -/
theorem C8_resource_iter_duplication :
    createResourceColumIteratorsD
        [⟨⟨.resource, .none, LabelServiceName⟩, .opNone, []⟩] false =
      .ok [.col columnPathResourceServiceName (.orP [.nilP]) LabelServiceName,
           .col columnPathResourceServiceName (.orP [.nilP]) LabelServiceName] := by
  rfl

/-! ## mergeSpansetIterator (C10) -/

/-- One outcome of a sub-iterator's `Next(ctx)`: the Go pair
`(*traceql.Spanset, error)`. -/
abbrev NextRes := Option Spanset × Option String

/-- A sub-iterator (`genIterator[traceql.Spanset]`) modelled as its remaining
stream of `Next` outcomes; an exhausted stream keeps returning `(nil, nil)`. -/
abbrev SubIter := List NextRes

/-- One `Next` call on a sub-iterator. -/
def subNext : SubIter → NextRes × SubIter
  | [] => ((none, none), [])
  | r :: rest => (r, rest)

/-- `mergeSpansetIterator` (block_traceql.go:166-169). -/
structure MergeSpansetIterator where
  iters : List SubIter
  cur : Nat

/-- The recursion of `mergeSpansetIterator.Next` (block_traceql.go:173-189)
over the sub-iterators from the current index on: an error from the current
sub-iterator returns immediately; a spanset returns; a nil spanset advances
`cur` and recurses. Returns `(result, updated sub-iterators, number of
sub-iterators advanced past, outcomes read in order)`. -/
def mergeNextFrom : List SubIter → NextRes × List SubIter × Nat × List NextRes
  | [] => ((none, none), [], 0, [])
  | it :: rest =>
    match subNext it with
    | ((sso, some e), it') => ((none, some e), it' :: rest, 0, [(sso, some e)])
    | ((some ss, none), it') => ((some ss, none), it' :: rest, 0, [(some ss, none)])
    | ((none, none), it') =>
      let t := mergeNextFrom rest
      (t.1, it' :: t.2.1, t.2.2.1 + 1, (none, none) :: t.2.2.2)

/-- `mergeSpansetIterator.Next` (block_traceql.go:173-189): `nil, nil` once
`cur` runs past the sub-iterators; otherwise the climb from `cur`. The third
component is the log of sub-iterator outcomes read by this call, in order
(the read at position `j` of the log is from sub-iterator `cur + j`). -/
def MergeSpansetIterator.next (i : MergeSpansetIterator) :
    NextRes × MergeSpansetIterator × List NextRes :=
  if i.iters.length ≤ i.cur then ((none, none), i, [])
  else
    let t := mergeNextFrom (i.iters.drop i.cur)
    (t.1, ⟨i.iters.take i.cur ++ t.2.1, i.cur + t.2.2.1⟩, t.2.2.2)

theorem mergeNextFrom_len (l : List SubIter) :
    (mergeNextFrom l).2.1.length = l.length := by
  induction l with
  | nil => rfl
  | cons it rest ih =>
    rcases it with _ | ⟨⟨sso, eo⟩, itrest⟩
    · simp [mergeNextFrom, subNext, ih]
    · rcases eo with _ | e
      · rcases sso with _ | ss <;> simp [mergeNextFrom, subNext, ih]
      · simp [mergeNextFrom, subNext]

theorem mergeNextFrom_none_k (l : List SubIter)
    (h : (mergeNextFrom l).1 = (none, none)) :
    (mergeNextFrom l).2.2.1 = l.length := by
  induction l with
  | nil => rfl
  | cons it rest ih =>
    rcases it with _ | ⟨⟨sso, eo⟩, itrest⟩
    · simp only [mergeNextFrom, subNext] at h ⊢
      rw [ih h]
      simp
    · rcases eo with _ | e
      · rcases sso with _ | ss
        · simp only [mergeNextFrom, subNext] at h ⊢
          rw [ih h]
          simp
        · simp [mergeNextFrom, subNext] at h
      · simp [mergeNextFrom, subNext] at h

theorem mergeNextFrom_err (l : List SubIter) (e : String)
    (h : (mergeNextFrom l).1.2 = some e) :
    (mergeNextFrom l).2.2.2.length = (mergeNextFrom l).2.2.1 + 1 ∧
    ∃ sso, (mergeNextFrom l).2.2.2.getLast? = some (sso, some e) := by
  induction l with
  | nil => simp [mergeNextFrom] at h
  | cons it rest ih =>
    rcases it with _ | ⟨⟨sso, eo⟩, itrest⟩
    · simp only [mergeNextFrom, subNext] at h ⊢
      obtain ⟨h1, sso', h2⟩ := ih h
      refine ⟨by simp [h1], sso', ?_⟩
      rw [List.getLast?_cons, h2]
      simp
    · rcases eo with _ | e'
      · rcases sso with _ | ss
        · simp only [mergeNextFrom, subNext] at h ⊢
          obtain ⟨h1, sso', h2⟩ := ih h
          refine ⟨by simp [h1], sso', ?_⟩
          rw [List.getLast?_cons, h2]
          simp
        · simp [mergeNextFrom, subNext] at h
      · simp only [mergeNextFrom, subNext] at h ⊢
        cases h
        exact ⟨rfl, sso, rfl⟩

theorem mergeNextFrom_dropLast (l : List SubIter) :
    ∀ x ∈ (mergeNextFrom l).2.2.2.dropLast, x = (none, none) := by
  induction l with
  | nil => simp [mergeNextFrom]
  | cons it rest ih =>
    rcases it with _ | ⟨⟨sso, eo⟩, itrest⟩
    · intro x hx
      simp only [mergeNextFrom, subNext] at hx
      rcases hl : (mergeNextFrom rest).2.2.2 with _ | ⟨y, ys⟩
      · rw [hl] at hx
        simp at hx
      · rw [hl, List.dropLast_cons₂] at hx
        rcases List.mem_cons.mp hx with rfl | hx'
        · rfl
        · exact ih x (by rw [hl]; exact hx')
    · rcases eo with _ | e
      · rcases sso with _ | ss
        · intro x hx
          simp only [mergeNextFrom, subNext] at hx
          rcases hl : (mergeNextFrom rest).2.2.2 with _ | ⟨y, ys⟩
          · rw [hl] at hx
            simp at hx
          · rw [hl, List.dropLast_cons₂] at hx
            rcases List.mem_cons.mp hx with rfl | hx'
            · rfl
            · exact ih x (by rw [hl]; exact hx')
        · intro x hx
          simp [mergeNextFrom, subNext] at hx
      · intro x hx
        simp [mergeNextFrom, subNext] at hx

theorem mergeNextFrom_reads (l : List SubIter) :
    ∀ j x, (mergeNextFrom l).2.2.2.get? j = some x →
      ∃ it, l.get? j = some it ∧ x = (subNext it).1 := by
  induction l with
  | nil => intro j x hx; simp [mergeNextFrom] at hx
  | cons it rest ih =>
    intro j x hx
    rcases it with _ | ⟨⟨sso, eo⟩, itrest⟩
    · simp only [mergeNextFrom, subNext] at hx
      rcases j with _ | j
      · simp at hx
        exact ⟨[], rfl, hx.symm⟩
      · obtain ⟨it', h1, h2⟩ := ih j x (by simpa using hx)
        exact ⟨it', by simpa using h1, h2⟩
    · rcases eo with _ | e
      · rcases sso with _ | ss
        · simp only [mergeNextFrom, subNext] at hx
          rcases j with _ | j
          · simp at hx
            exact ⟨(none, none) :: itrest, rfl, hx.symm⟩
          · obtain ⟨it', h1, h2⟩ := ih j x (by simpa using hx)
            exact ⟨it', by simpa using h1, h2⟩
        · simp only [mergeNextFrom, subNext] at hx
          rcases j with _ | j
          · simp at hx
            exact ⟨(some ss, none) :: itrest, rfl, hx.symm⟩
          · simp at hx
      · simp only [mergeNextFrom, subNext] at hx
        rcases j with _ | j
        · simp at hx
          exact ⟨(sso, some e) :: itrest, rfl, hx.symm⟩
        · simp at hx

/-- C10: `mergeSpansetIterator.Next` drains its sub-iterators strictly in
index order (the outcome at position `j` of this call's read log is the head
of the sub-iterator at index `cur + j`, and every read except the last
returned a nil spanset with nil error — so sub-iterator `k+1` is never read
before sub-iterator `k` returned nil); end-of-stream is absorbing (after a
`nil, nil` result every further call returns `nil, nil` without reads); and
an error is returned immediately: the erroring sub-iterator's outcome is the
last read and the iterator does not advance past it. -/
theorem C10_merge_iterator (i : MergeSpansetIterator) :
    (i.iters.length ≤ i.cur →
      MergeSpansetIterator.next i = ((none, none), i, [])) ∧
    (∀ i' log, MergeSpansetIterator.next i = ((none, none), i', log) →
      MergeSpansetIterator.next i' = ((none, none), i', [])) ∧
    (∀ e i' log, MergeSpansetIterator.next i = ((none, some e), i', log) →
      i'.cur + 1 = i.cur + log.length ∧
      ∃ sso, log.getLast? = some (sso, some e)) ∧
    (∀ res i' log, MergeSpansetIterator.next i = (res, i', log) →
      i.cur ≤ i'.cur ∧
      (∀ x ∈ log.dropLast, x = (none, none)) ∧
      (∀ j x, log.get? j = some x →
        ∃ it, i.iters.get? (i.cur + j) = some it ∧ x = (subNext it).1)) := by
  refine ⟨?_, ?_, ?_, ?_⟩
  · intro h
    unfold MergeSpansetIterator.next
    rw [if_pos h]
  · intro i' log h
    by_cases hlen : i.iters.length ≤ i.cur
    · unfold MergeSpansetIterator.next at h
      rw [if_pos hlen] at h
      injection h with h1 h2
      injection h2 with h2 h3
      subst h2
      unfold MergeSpansetIterator.next
      rw [if_pos hlen]
    · simp only [MergeSpansetIterator.next] at h
      rw [if_neg hlen] at h
      injection h with h1 h2
      injection h2 with h2 h3
      subst h2
      have hk := mergeNextFrom_none_k _ h1
      have hlen2 := mergeNextFrom_len (i.iters.drop i.cur)
      have hcur : i.cur + (mergeNextFrom (i.iters.drop i.cur)).2.2.1 =
          i.iters.length := by
        rw [hk, List.length_drop]
        omega
      unfold MergeSpansetIterator.next
      rw [if_pos ?_]
      simp only [List.length_append, List.length_take, hlen2, List.length_drop,
        hcur]
      omega
  · intro e i' log h
    by_cases hlen : i.iters.length ≤ i.cur
    · unfold MergeSpansetIterator.next at h
      rw [if_pos hlen] at h
      injection h with h1 h2
      simp at h1
    · simp only [MergeSpansetIterator.next] at h
      rw [if_neg hlen] at h
      injection h with h1 h2
      injection h2 with h2 h3
      subst h2
      subst h3
      have he : (mergeNextFrom (i.iters.drop i.cur)).1.2 = some e := by
        rw [h1]
      obtain ⟨hlog, sso, hlast⟩ := mergeNextFrom_err _ e he
      refine ⟨?_, sso, hlast⟩
      show i.cur + (mergeNextFrom (i.iters.drop i.cur)).2.2.1 + 1 =
        i.cur + (mergeNextFrom (i.iters.drop i.cur)).2.2.2.length
      rw [hlog]
      omega
  · intro res i' log h
    by_cases hlen : i.iters.length ≤ i.cur
    · unfold MergeSpansetIterator.next at h
      rw [if_pos hlen] at h
      injection h with h1 h2
      injection h2 with h2 h3
      subst h2
      subst h3
      refine ⟨Nat.le_refl _, by simp, ?_⟩
      intro j x hx
      simp at hx
    · simp only [MergeSpansetIterator.next] at h
      rw [if_neg hlen] at h
      injection h with h1 h2
      injection h2 with h2 h3
      subst h2
      subst h3
      refine ⟨Nat.le_add_right _ _, mergeNextFrom_dropLast _, ?_⟩
      intro j x hx
      obtain ⟨it, hit, hx'⟩ := mergeNextFrom_reads _ j x hx
      refine ⟨it, ?_, hx'⟩
      rw [← List.get?_drop]
      exact hit

theorem C10_merge_iterator_witness :
    let i : MergeSpansetIterator := ⟨[[(none, none)], [(some ⟨[]⟩, none)]], 0⟩
    let r := MergeSpansetIterator.next i
    i.cur ≤ r.2.1.cur ∧ (∀ x ∈ r.2.2.dropLast, x = (none, none)) := by
  intro i r
  obtain ⟨h1, h2, h3⟩ :=
    (C10_merge_iterator i).2.2.2 r.1 r.2.1 r.2.2 (by rfl)
  exact ⟨h1, h2⟩

end Tempo
